import Mathlib

/-!
Verification of the baseline_core subsystem (snapshot storage, baseline
singleton enforcement, the proposal state machine, and the diff/severity
classifier) of the GENAI-33B-loa-surf repository.

The Python modules baseline_core/db.py, baseline_core/diff.py and
baseline_core/routes.py are shallowly embedded below: the five SQLite tables
become lists of rows, each route/detector function becomes a Lean function
returning `Except Err`, and a whole transaction either commits (returning the
new database) or rolls back (returning an error, leaving the state unchanged).
The content-hash function (hashlib.sha256 hexdigest) is kept as an abstract
parameter `sha : String → String`; the code only computes, stores and compares
hashes, never inspects them.
-/

namespace BaselineCore

/-! ### String helpers modelling the Python primitives used by the code -/

/-- Python substring test: `needle in hay`. -/
def strContains (hay needle : String) : Bool :=
  (List.range (hay.length + 1)).any (fun i => needle.data.isPrefixOf (hay.data.drop i))

/-- Python `str.lower` (the texts involved are ASCII configuration lines). -/
def pyLower (s : String) : String :=
  ⟨s.data.map Char.toLower⟩

/-- Python `str.startswith`. -/
def pyStartsWith (s pre : String) : Bool :=
  pre.data.isPrefixOf s.data

/-- Segments of a character list split at newline characters. -/
def splitSegs : List Char → List (List Char)
  | [] => [[]]
  | c :: rest =>
    let segs := splitSegs rest
    if c = '\n' then [] :: segs
    else
      match segs with
      | [] => [[c]]
      | s :: ss => (c :: s) :: ss

/-- Python `str.splitlines` for texts whose line separator is the newline
character (the configuration texts handled by diff.py): no trailing empty
line for a text ending in a newline, and the empty text has no lines. -/
def splitlines (s : String) : List String :=
  match s.data.getLast? with
  | none => []
  | some c =>
    let segs := (splitSegs s.data).map (fun cs => (⟨cs⟩ : String))
    if c = '\n' then segs.dropLast else segs

/-! ### The severity classifier (diff.py lines 6-25) -/

/-- Keyword table CRITICAL_KEYS from diff.py line 6. -/
def CRITICAL_KEYS : List String :=
  ["interface ", "access-list", "acl ", "route-map", "ip access"]

/-- Keyword table WARN_KEYS from diff.py line 7. -/
def WARN_KEYS : List String := ["hostname", "banner"]

/-- Model of classify_severity (diff.py lines 15-25): scan every given line,
lower-cased, first for a critical keyword, then for a warn keyword. -/
def classify_severity (diff_lines : List String) : String :=
  if diff_lines.any (fun line => CRITICAL_KEYS.any (fun k => strContains (pyLower line) k)) then
    "critical"
  else if diff_lines.any (fun line => WARN_KEYS.any (fun k => strContains (pyLower line) k)) then
    "warn"
  else "info"

/-! ### Model of Python difflib, as invoked by diff.py line 57

diff.py calls `difflib.unified_diff(base.splitlines(), new.splitlines(),
lineterm="")`.  The definitions below transcribe SequenceMatcher (with
`isjunk=None`, so both junk-extension passes of find_longest_match are no-ops)
and unified_diff (with empty file names/dates and empty lineterm). -/

/-- The b2j table of SequenceMatcher: indices `j` with `b[j] = x`, ascending,
including the autojunk popularity rule (active only when `b` has at least 200
elements). -/
def b2jGet (b : List String) (x : String) : List Nat :=
  let js := (List.range b.length).filter (fun j => b.getD j "" == x)
  if 200 ≤ b.length ∧ b.length / 100 + 1 < js.length then [] else js

/-- Lookup in the j2len working dictionary of find_longest_match. -/
def j2lenGet (m : List (Nat × Nat)) (k : Nat) : Nat :=
  match m.find? (fun p => p.1 == k) with
  | some p => p.2
  | none => 0

/-- Inner loop of find_longest_match over the candidate `j` positions for one
`i` (`continue` below `blo`, `break` at `bhi`), threading the new j2len
dictionary and the current best `(besti, bestj, bestsize)`. -/
def flmScanJ (i blo bhi : Nat) (old : List (Nat × Nat)) :
    List Nat → List (Nat × Nat) → Nat × Nat × Nat → List (Nat × Nat) × (Nat × Nat × Nat)
  | [], new, best => (new, best)
  | j :: rest, new, best =>
    if j < blo then flmScanJ i blo bhi old rest new best
    else if bhi ≤ j then (new, best)
    else
      let k := (if j = 0 then 0 else j2lenGet old (j - 1)) + 1
      let best' := if best.2.2 < k then (i + 1 - k, j + 1 - k, k) else best
      flmScanJ i blo bhi old rest ((j, k) :: new) best'

/-- Main dynamic-programming loop of find_longest_match over `i ∈ [alo, ahi)`. -/
def flmCore (a b : List String) (alo ahi blo bhi : Nat) : Nat × Nat × Nat :=
  ((List.range' alo (ahi - alo)).foldl
    (fun acc i => flmScanJ i blo bhi acc.1 (b2jGet b (a.getD i "")) [] acc.2)
    ([], (alo, blo, 0))).2

/-- Backward extension of the best match over equal adjacent elements. -/
def extendLo (a b : List String) (alo blo : Nat) : Nat → Nat × Nat × Nat → Nat × Nat × Nat
  | 0, m => m
  | fuel + 1, m =>
    if alo < m.1 ∧ blo < m.2.1 ∧ a.getD (m.1 - 1) "" = b.getD (m.2.1 - 1) "" then
      extendLo a b alo blo fuel (m.1 - 1, m.2.1 - 1, m.2.2 + 1)
    else m

/-- Forward extension of the best match over equal adjacent elements. -/
def extendHi (a b : List String) (ahi bhi : Nat) : Nat → Nat × Nat × Nat → Nat × Nat × Nat
  | 0, m => m
  | fuel + 1, m =>
    if m.1 + m.2.2 < ahi ∧ m.2.1 + m.2.2 < bhi ∧
        a.getD (m.1 + m.2.2) "" = b.getD (m.2.1 + m.2.2) "" then
      extendHi a b ahi bhi fuel (m.1, m.2.1, m.2.2 + 1)
    else m

/-- find_longest_match of SequenceMatcher with `isjunk = None`. -/
def findLongestMatch (a b : List String) (alo ahi blo bhi : Nat) : Nat × Nat × Nat :=
  let m0 := flmCore a b alo ahi blo bhi
  extendHi a b ahi bhi ahi (extendLo a b alo blo m0.1 m0)

/-- Recursive queue processing of get_matching_blocks (the fuel bounds the
number of region pops; it is never exhausted since each region is split into
strictly smaller disjoint regions). -/
def gmbLoop (a b : List String) :
    Nat → List (Nat × Nat × Nat × Nat) → List (Nat × Nat × Nat) → List (Nat × Nat × Nat)
  | 0, _, acc => acc
  | _ + 1, [], acc => acc
  | fuel + 1, (alo, ahi, blo, bhi) :: queue, acc =>
    let m := findLongestMatch a b alo ahi blo bhi
    if m.2.2 = 0 then gmbLoop a b fuel queue acc
    else
      let q1 := if alo < m.1 ∧ blo < m.2.1 then (alo, m.1, blo, m.2.1) :: queue else queue
      let q2 := if m.1 + m.2.2 < ahi ∧ m.2.1 + m.2.2 < bhi then
          (m.1 + m.2.2, ahi, m.2.1 + m.2.2, bhi) :: q1
        else q1
      gmbLoop a b fuel q2 (m :: acc)

/-- Lexicographic order on the `(i, j, size)` triples, as Python sorts them. -/
def tripleLe (x y : Nat × Nat × Nat) : Bool :=
  decide (x.1 < y.1 ∨ (x.1 = y.1 ∧ (x.2.1 < y.2.1 ∨ (x.2.1 = y.2.1 ∧ x.2.2 ≤ y.2.2))))

/-- Insertion into a sorted list of triples. -/
def insSorted (x : Nat × Nat × Nat) : List (Nat × Nat × Nat) → List (Nat × Nat × Nat)
  | [] => [x]
  | y :: ys => if tripleLe x y then x :: y :: ys else y :: insSorted x ys

/-- Insertion sort of the matching blocks (Python `list.sort`). -/
def sortTriples (l : List (Nat × Nat × Nat)) : List (Nat × Nat × Nat) :=
  l.foldr insSorted []

/-- Collapse of adjacent matching blocks in get_matching_blocks, starting from
the accumulator `(0, 0, 0)` exactly as the Python loop does. -/
def collapseAdjacent : Nat × Nat × Nat → List (Nat × Nat × Nat) → List (Nat × Nat × Nat)
  | acc, [] => if acc.2.2 ≠ 0 then [acc] else []
  | acc, x :: rest =>
    if acc.1 + acc.2.2 = x.1 ∧ acc.2.1 + acc.2.2 = x.2.1 then
      collapseAdjacent (acc.1, acc.2.1, acc.2.2 + x.2.2) rest
    else if acc.2.2 ≠ 0 then acc :: collapseAdjacent x rest
    else collapseAdjacent x rest

/-- get_matching_blocks of SequenceMatcher. -/
def getMatchingBlocks (a b : List String) : List (Nat × Nat × Nat) :=
  let raw := gmbLoop a b (2 * (a.length + b.length) + 4) [(0, a.length, 0, b.length)] []
  collapseAdjacent (0, 0, 0) (sortTriples raw) ++ [(a.length, b.length, 0)]

/-- One `(tag, i1, i2, j1, j2)` opcode of SequenceMatcher.get_opcodes. -/
structure OpCode where
  tag : String
  a1 : Nat
  a2 : Nat
  b1 : Nat
  b2 : Nat
deriving DecidableEq, Inhabited

/-- Loop of get_opcodes over the matching blocks. -/
def opcodesGo : Nat → Nat → List (Nat × Nat × Nat) → List OpCode
  | _, _, [] => []
  | i, j, (ai, bj, size) :: rest =>
    let tag := if i < ai ∧ j < bj then "replace"
      else if i < ai then "delete"
      else if j < bj then "insert"
      else ""
    (if tag ≠ "" then [⟨tag, i, ai, j, bj⟩] else [])
      ++ (if size ≠ 0 then [⟨"equal", ai, ai + size, bj, bj + size⟩] else [])
      ++ opcodesGo (ai + size) (bj + size) rest

/-- get_opcodes of SequenceMatcher. -/
def getOpcodes (a b : List String) : List OpCode :=
  opcodesGo 0 0 (getMatchingBlocks a b)

/-- Trim the final `equal` opcode to `n` context lines, as get_grouped_opcodes
does on the last code. -/
def adjustLastEqual (n : Nat) : List OpCode → List OpCode
  | [] => []
  | [c] =>
    [if c.tag = "equal" then { c with a2 := min c.a2 (c.a1 + n), b2 := min c.b2 (c.b1 + n) } else c]
  | c :: c2 :: rest => c :: adjustLastEqual n (c2 :: rest)

/-- Grouping loop of get_grouped_opcodes: split whenever an `equal` run exceeds
`2 * n` lines, trimming it to `n` context lines on either side. -/
def groupGo (n : Nat) : List OpCode → List OpCode → List (List OpCode)
  | group, [] =>
    if group ≠ [] ∧ ¬(group.length = 1 ∧ (group.headD default).tag = "equal") then [group] else []
  | group, c :: rest =>
    if c.tag = "equal" ∧ 2 * n < c.a2 - c.a1 then
      (group ++ [{ c with a2 := min c.a2 (c.a1 + n), b2 := min c.b2 (c.b1 + n) }])
        :: groupGo n [{ c with a1 := max c.a1 (c.a2 - n), b1 := max c.b1 (c.b2 - n) }] rest
    else groupGo n (group ++ [c]) rest

/-- get_grouped_opcodes of SequenceMatcher with the default `n = 3`. -/
def getGroupedOpcodes (a b : List String) : List (List OpCode) :=
  let n := 3
  let codes0 := getOpcodes a b
  let codes1 := if codes0 = [] then [⟨"equal", 0, 1, 0, 1⟩] else codes0
  let codes2 := match codes1 with
    | c :: rest =>
      (if c.tag = "equal" then { c with a1 := max c.a1 (c.a2 - n), b1 := max c.b1 (c.b2 - n) }
       else c) :: rest
    | [] => []
  groupGo n [] (adjustLastEqual n codes2)

/-- difflib._format_range_unified. -/
def formatRangeUnified (start stop : Nat) : String :=
  let beginning := start + 1
  let length := stop - start
  if length = 1 then toString beginning
  else toString (if length = 0 then beginning - 1 else beginning) ++ "," ++ toString length

/-- Python slice `l[i:j]`. -/
def sliceList (l : List String) (i j : Nat) : List String :=
  (l.drop i).take (j - i)

/-- Lines emitted by unified_diff for one opcode. -/
def opcodeLines (a b : List String) (c : OpCode) : List String :=
  if c.tag = "equal" then (sliceList a c.a1 c.a2).map (fun ln => " " ++ ln)
  else
    (if c.tag = "replace" ∨ c.tag = "delete" then
      (sliceList a c.a1 c.a2).map (fun ln => "-" ++ ln)
    else [])
      ++ (if c.tag = "replace" ∨ c.tag = "insert" then
        (sliceList b c.b1 c.b2).map (fun ln => "+" ++ ln)
      else [])

/-- Lines emitted by unified_diff for one group: hunk header then the lines of
each opcode. -/
def groupLines (a b : List String) (g : List OpCode) : List String :=
  match g with
  | [] => []
  | first :: _ =>
    ("@@ -" ++ formatRangeUnified first.a1 (g.getLastD first).a2
      ++ " +" ++ formatRangeUnified first.b1 (g.getLastD first).b2 ++ " @@")
      :: (g.map (opcodeLines a b)).flatten

/-- difflib.unified_diff with empty file names/dates and `lineterm = ""`: the
two header lines (when any group exists) followed by the grouped hunks. -/
def unifiedDiff (a b : List String) : List String :=
  match getGroupedOpcodes a b with
  | [] => []
  | g :: gs => "--- " :: "+++ " :: ((g :: gs).map (groupLines a b)).flatten

/-! ### Data model: the five tables of db.py, as lists of rows in rowid order

INTEGER PRIMARY KEY columns are modelled by fresh ids computed as the maximum
existing id plus one, matching SQLite rowid assignment for these append-only
tables. -/

/-- One ConfigSnapshot row (db.py lines 13-19). -/
structure SnapshotRow where
  id : Nat
  device_id : Int
  text : String
  sha256 : String
deriving DecidableEq

/-- One Baseline row (db.py lines 21-28); device_id is the primary key. -/
structure BaselineRow where
  device_id : Int
  snapshot_id : Nat
  sha256 : String
  set_by : String
deriving DecidableEq

/-- One BaselineHistory row (db.py lines 30-36). -/
structure HistoryRow where
  id : Nat
  device_id : Int
  snapshot_id : Nat
  sha256 : String
deriving DecidableEq

/-- One Proposal row (db.py lines 38-49); `decided_at` keeps the timestamp
string handed to the deciding call. -/
structure ProposalRow where
  id : Nat
  device_id : Int
  snapshot_id : Nat
  comment : String
  proposed_by : String
  status : String
  decided_by : Option String
  decided_at : Option String
deriving DecidableEq

/-- One DeviationEvent row (db.py lines 52-59); diff_stats is kept as its two
counters. -/
structure DeviationRow where
  id : Nat
  device_id : Int
  snapshot_id : Nat
  severity : String
  added : Nat
  removed : Nat
deriving DecidableEq

/-- The whole database. -/
structure DB where
  snapshots : List SnapshotRow
  baselines : List BaselineRow
  history : List HistoryRow
  proposals : List ProposalRow
  deviations : List DeviationRow
deriving DecidableEq

/-- The freshly initialised database (init_db creates empty tables). -/
def DB.init : DB := ⟨[], [], [], [], []⟩

/-- Fresh INTEGER PRIMARY KEY value for an append-only table. -/
def freshId (ids : List Nat) : Nat := ids.foldr max 0 + 1

/-- Error outcomes of one operation: the werkzeug exceptions raised by
routes.py, the explicit 409 JSON response, and `internal` for Python/SQLite
errors (failed trigger, UNIQUE violation, missing row) that abort the
transaction before its commit. -/
inductive Err where
  | badRequest (msg : String)
  | notFound (msg : String)
  | forbidden (msg : String)
  | conflict (msg : String)
  | internal (msg : String)
deriving DecidableEq

/-! ### The operations

Each Python operation runs on one connection and commits exactly once at the
end; any exception on the way closes the connection without committing, which
rolls the transaction back.  Accordingly each model function returns either
`ok` with the committed database or `error` and no database.  The actor string
is the already-resolved identity (authentication is outside the core). -/

/-- Model of create_proposal (routes.py lines 39-77): validate the text,
reject when a ConfigSnapshot with the same device and hash exists (409), else
insert the snapshot and a pending proposal. -/
def create_proposal (sha : String → String) (db : DB) (device_id : Int)
    (text comment user : String) : Except Err (DB × Nat) :=
  if text = "" then .error (.badRequest "'snapshot' text required")
  else
    let hv := sha text
    match db.snapshots.find? (fun s => s.device_id == device_id && s.sha256 == hv) with
    | some _ => .error (.conflict "identical snapshot already exists")
    | none =>
      let sid := freshId (db.snapshots.map (fun s => s.id))
      let pid := freshId (db.proposals.map (fun p => p.id))
      .ok ({ db with
              snapshots := db.snapshots ++ [⟨sid, device_id, text, hv⟩],
              proposals := db.proposals ++ [⟨pid, device_id, sid, comment, user, "pending", none, none⟩] },
           pid)

/-- Archive step of the promotion (routes.py lines 134-141): fetch the current
baseline of the device; when one exists, copy it into BaselineHistory and
delete it. -/
def archive (db : DB) (device_id : Int) : DB :=
  match db.baselines.find? (fun b => b.device_id == device_id) with
  | some bl =>
    { db with
      history := db.history ++
        [⟨freshId (db.history.map (fun hr => hr.id)), device_id, bl.snapshot_id, bl.sha256⟩],
      baselines := db.baselines.filter (fun b => !(b.device_id == device_id)) }
  | none => db

/-- Promotion part of decide_proposal (routes.py lines 131-147): archive the
current baseline, read the promoted snapshot's stored sha256 from its
ConfigSnapshot row (a missing row would raise in Python and roll the
transaction back), and insert the new Baseline row, which is guarded by the
baseline_singleton trigger (db.py lines 74-79) and by the UNIQUE constraint
on Baseline.snapshot_id (db.py line 23); either violation aborts the whole
transaction. -/
def promote (db : DB) (device_id : Int) (snapshot_id : Nat) (user : String) : Except Err DB :=
  let db2 : DB := archive db device_id
  match db2.snapshots.find? (fun s => s.id == snapshot_id) with
  | none => .error (.internal "snapshot row missing")
  | some srow =>
    if db2.baselines.any (fun b => b.device_id == device_id) then
      .error (.internal "baseline exists")
    else if db2.baselines.any (fun b => b.snapshot_id == snapshot_id) then
      .error (.internal "Baseline.snapshot_id is UNIQUE")
    else
      .ok { db2 with baselines := db2.baselines ++
              [⟨device_id, snapshot_id, srow.sha256, user⟩] }

/-- Status update of routes.py lines 126-129: set status, decided_by and
decided_at on the row with the given id. -/
def updateProposals (props : List ProposalRow) (pid : Nat) (st u n : String) :
    List ProposalRow :=
  props.map (fun p =>
    if p.id == pid then { p with status := st, decided_by := some u, decided_at := some n }
    else p)

/-- Model of decide_proposal (routes.py lines 102-150): validate the action,
look the proposal up (404), refuse an already decided proposal (400), refuse a
self-decision (403), record the decision, and on approval promote the
proposal's snapshot, all in the same transaction. -/
def decide_proposal (_sha : String → String) (db : DB) (proposal_id : Nat)
    (action user now : String) : Except Err (DB × String) :=
  if action ≠ "approve" ∧ action ≠ "reject" then
    .error (.badRequest "action must be 'approve' or 'reject'")
  else
    match db.proposals.find? (fun p => p.id == proposal_id) with
    | none => .error (.notFound "Proposal not found")
    | some prop =>
      if prop.status ≠ "pending" then .error (.badRequest "Proposal already decided")
      else if prop.proposed_by = user then
        .error (.forbidden "Proposer cannot self-approve/reject")
      else
        let status := if action = "approve" then "approved" else "rejected"
        let db1 : DB := { db with proposals := updateProposals db.proposals proposal_id status user now }
        if status = "approved" then
          match promote db1 prop.device_id prop.snapshot_id user with
          | .ok db2 => .ok (db2, status)
          | .error e => .error e
        else .ok (db1, status)

/-- Result of diff_and_record: severity, the two diff_stats counters and the
id of the inserted snapshot. -/
structure RecordResult where
  severity : String
  added : Nat
  removed : Nat
  snapshot_id : Nat
deriving DecidableEq

/-- Model of diff_and_record (diff.py lines 28-70): insert the snapshot
unconditionally, return info with zero stats when the device has no baseline,
else diff the baseline text against the new text, count added/removed lines,
classify the whole unified diff, and persist a DeviationEvent when the
severity is not info. -/
def diff_and_record (sha : String → String) (db : DB) (device_id : Int)
    (snapshot_text : String) : Except Err (DB × RecordResult) :=
  let sid := freshId (db.snapshots.map (fun s => s.id))
  let db1 : DB := { db with snapshots := db.snapshots ++ [⟨sid, device_id, snapshot_text, sha snapshot_text⟩] }
  match db1.baselines.find? (fun b => b.device_id == device_id) with
  | none => .ok (db1, ⟨"info", 0, 0, sid⟩)
  | some bl =>
    match db1.snapshots.find? (fun s => s.id == bl.snapshot_id) with
    | none => .error (.internal "baseline snapshot row missing")
    | some base =>
      let diff := unifiedDiff (splitlines base.text) (splitlines snapshot_text)
      let added := (diff.filter (fun ln => pyStartsWith ln "+" && !pyStartsWith ln "+++")).length
      let removed := (diff.filter (fun ln => pyStartsWith ln "-" && !pyStartsWith ln "---")).length
      let severity := classify_severity diff
      let db2 : DB :=
        if severity ≠ "info" then
          { db1 with deviations := db1.deviations ++
            [⟨freshId (db1.deviations.map (fun d => d.id)), device_id, sid, severity, added, removed⟩] }
        else db1
      .ok (db2, ⟨severity, added, removed, sid⟩)

/-- One invocation of a core operation together with its external inputs
(actor identity, decision timestamp). -/
inductive Op where
  | propose (device_id : Int) (text comment user : String)
  | decide (proposal_id : Nat) (action user now : String)
  | record (device_id : Int) (text : String)

/-- Effect of one operation on the committed database: the new state when the
transaction commits, the unchanged state when it rolls back. -/
def step (sha : String → String) (db : DB) : Op → DB
  | .propose d t c u =>
    match create_proposal sha db d t c u with
    | .ok (db', _) => db'
    | .error _ => db
  | .decide pid a u now =>
    match decide_proposal sha db pid a u now with
    | .ok (db', _) => db'
    | .error _ => db
  | .record d t =>
    match diff_and_record sha db d t with
    | .ok (db', _) => db'
    | .error _ => db

/-- Run a sequence of operations from a given state. -/
def execFrom (sha : String → String) (db : DB) (ops : List Op) : DB :=
  ops.foldl (step sha) db

/-- Run a sequence of operations from the freshly initialised database: the
states `execOps sha ops` are exactly the reachable committed states. -/
def execOps (sha : String → String) (ops : List Op) : DB :=
  execFrom sha DB.init ops

/-! ### Generic list lemmas for keyed rows -/

theorem le_foldr_max {l : List Nat} {x : Nat} (hx : x ∈ l) : x ≤ l.foldr max 0 := by
  induction l with
  | nil => cases hx
  | cons y ys ih =>
    rcases List.mem_cons.mp hx with h | h
    · subst h; exact le_max_left _ _
    · exact le_trans (ih h) (le_max_right _ _)

theorem freshId_gt {l : List Nat} {x : Nat} (hx : x ∈ l) : x < freshId l :=
  Nat.lt_succ_of_le (le_foldr_max hx)

theorem pairwise_key_eq {α β : Type} {key : α → β} {l : List α}
    (h : l.Pairwise (fun x y => key x ≠ key y)) {a b : α}
    (ha : a ∈ l) (hb : b ∈ l) (hk : key a = key b) : a = b := by
  induction l with
  | nil => cases ha
  | cons x xs ih =>
    rcases List.pairwise_cons.mp h with ⟨hx, hxs⟩
    rcases List.mem_cons.mp ha with rfl | ha'
    · rcases List.mem_cons.mp hb with rfl | hb'
      · rfl
      · exact absurd hk (hx b hb')
    · rcases List.mem_cons.mp hb with rfl | hb'
      · exact absurd hk.symm (hx a ha')
      · exact ih hxs ha' hb'

theorem find?_eq_self_of_mem {α β : Type} [BEq β] [LawfulBEq β] {key : α → β} {l : List α}
    (h : l.Pairwise (fun x y => key x ≠ key y)) {p : α} (hp : p ∈ l) :
    l.find? (fun x => key x == key p) = some p := by
  induction l with
  | nil => cases hp
  | cons x xs ih =>
    rcases List.pairwise_cons.mp h with ⟨hx, hxs⟩
    by_cases hk : (key x == key p) = true
    · have hxp : x = p := by
        rcases List.mem_cons.mp hp with rfl | hp'
        · rfl
        · exact absurd (eq_of_beq hk) (hx p hp')
      simp [List.find?_cons, hk, hxp]
    · have hp' : p ∈ xs := by
        rcases List.mem_cons.mp hp with rfl | hp'
        · exact absurd (by simp) hk
        · exact hp'
      simp [List.find?_cons, hk, ih hxs hp']

theorem mem_eq_of_find? {α β : Type} [BEq β] [LawfulBEq β] {key : α → β} {l : List α} {k : β}
    (h : l.Pairwise (fun x y => key x ≠ key y)) {a b : α}
    (hfind : l.find? (fun x => key x == k) = some b) (ha : a ∈ l) (hk : key a = k) : a = b := by
  have hb := List.mem_of_find?_eq_some hfind
  have hkb := List.find?_some hfind
  simp only [beq_iff_eq] at hkb
  exact pairwise_key_eq h ha hb (by rw [hk, hkb])

theorem length_filter_le_one_of_pairwise {α β : Type} [BEq β] [LawfulBEq β] {key : α → β}
    {l : List α} (h : l.Pairwise (fun x y => key x ≠ key y)) (k : β) :
    (l.filter (fun x => key x == k)).length ≤ 1 := by
  induction l with
  | nil => simp
  | cons x xs ih =>
    rcases List.pairwise_cons.mp h with ⟨hx, hxs⟩
    by_cases hk : (key x == k) = true
    · have hnil : xs.filter (fun y => key y == k) = [] := by
        rw [List.filter_eq_nil_iff]
        intro y hy hky
        exact hx y hy (by rw [eq_of_beq hk, eq_of_beq hky])
      simp [List.filter_cons, hk, hnil]
    · simpa [List.filter_cons, hk] using ih hxs

/-! ### The inductive invariant of reachable committed states -/

/-- Core invariant of reachable committed states: primary keys are unique,
snapshot rows store the hash of their own text, at most one Baseline row per
device, every Baseline row matches its referenced ConfigSnapshot row, and
active baselines and history rows originate in approved proposals. -/
structure InvCore (sha : String → String) (db : DB) : Prop where
  snapIds : db.snapshots.Pairwise (fun s t => s.id ≠ t.id)
  propIds : db.proposals.Pairwise (fun p q => p.id ≠ q.id)
  snapSha : ∀ s ∈ db.snapshots, s.sha256 = sha s.text
  blDev : db.baselines.Pairwise (fun x y => x.device_id ≠ y.device_id)
  blSnap : ∀ bl ∈ db.baselines, ∃ s ∈ db.snapshots, s.id = bl.snapshot_id ∧ bl.sha256 = s.sha256
  blProp : ∀ bl ∈ db.baselines, ∃ p ∈ db.proposals,
    p.status = "approved" ∧ p.device_id = bl.device_id ∧ p.snapshot_id = bl.snapshot_id
  histProp : ∀ hr ∈ db.history, ∃ p ∈ db.proposals,
    p.status = "approved" ∧ p.device_id = hr.device_id ∧ p.snapshot_id = hr.snapshot_id

/-- The snapshot proposed by `p` is recorded for `p`'s device, either as the
active baseline or in the history. -/
def TrackedIn (db : DB) (p : ProposalRow) : Prop :=
  (∃ bl ∈ db.baselines, bl.device_id = p.device_id ∧ bl.snapshot_id = p.snapshot_id) ∨
  (∃ hr ∈ db.history, hr.device_id = p.device_id ∧ hr.snapshot_id = p.snapshot_id)

/-- Full invariant: the core invariant plus the guarantee that every approved
proposal's baseline change has been recorded. -/
structure Inv (sha : String → String) (db : DB) extends InvCore sha db : Prop where
  apTracked : ∀ p ∈ db.proposals, p.status = "approved" → TrackedIn db p

theorem inv_init (sha : String → String) : Inv sha DB.init := by
  exact ⟨⟨by simp [DB.init], by simp [DB.init], by simp [DB.init], by simp [DB.init],
    by simp [DB.init], by simp [DB.init], by simp [DB.init]⟩, by simp [DB.init]⟩

theorem inv_create {sha : String → String} {db : DB} {d : Int} {t c u : String}
    {db' : DB} {pid : Nat} (hinv : Inv sha db)
    (hok : create_proposal sha db d t c u = .ok (db', pid)) : Inv sha db' := by
  unfold create_proposal at hok
  split at hok
  · exact absurd hok (by simp)
  simp only [] at hok
  split at hok
  · exact absurd hok (by simp)
  simp only [Except.ok.injEq, Prod.mk.injEq] at hok
  obtain ⟨hdb, -⟩ := hok
  subst hdb
  refine ⟨⟨?_, ?_, ?_, hinv.blDev, ?_, ?_, ?_⟩, ?_⟩
  · refine List.pairwise_append.mpr ⟨hinv.snapIds, List.pairwise_singleton _ _, ?_⟩
    intro a ha b hb
    simp only [List.mem_singleton] at hb
    subst hb
    exact Nat.ne_of_lt (freshId_gt (List.mem_map_of_mem _ ha))
  · refine List.pairwise_append.mpr ⟨hinv.propIds, List.pairwise_singleton _ _, ?_⟩
    intro a ha b hb
    simp only [List.mem_singleton] at hb
    subst hb
    exact Nat.ne_of_lt (freshId_gt (List.mem_map_of_mem _ ha))
  · intro s hs
    rcases List.mem_append.mp hs with h | h
    · exact hinv.snapSha s h
    · simp only [List.mem_singleton] at h
      subst h
      rfl
  · intro bl hbl
    obtain ⟨s, hs, hid, hsha⟩ := hinv.blSnap bl hbl
    exact ⟨s, List.mem_append_left _ hs, hid, hsha⟩
  · intro bl hbl
    obtain ⟨p, hp, hst, hdev, hsid⟩ := hinv.blProp bl hbl
    exact ⟨p, List.mem_append_left _ hp, hst, hdev, hsid⟩
  · intro hr hhr
    obtain ⟨p, hp, hst, hdev, hsid⟩ := hinv.histProp hr hhr
    exact ⟨p, List.mem_append_left _ hp, hst, hdev, hsid⟩
  · intro p hp hap
    rcases List.mem_append.mp hp with h | h
    · exact hinv.apTracked p h hap
    · simp only [List.mem_singleton] at h
      subst h
      exact absurd hap (by simp)

/-- A committed diff_and_record leaves every table except ConfigSnapshot and
DeviationEvent untouched and appends exactly one snapshot row holding the
hash of its own text. -/
theorem record_ok_fields {sha : String → String} {db : DB} {d : Int} {t : String}
    {db' : DB} {r : RecordResult} (hok : diff_and_record sha db d t = .ok (db', r)) :
    db'.baselines = db.baselines ∧ db'.proposals = db.proposals ∧ db'.history = db.history ∧
    db'.snapshots = db.snapshots ++ [⟨freshId (db.snapshots.map (fun s => s.id)), d, t, sha t⟩] := by
  unfold diff_and_record at hok
  simp only [] at hok
  split at hok
  · simp only [Except.ok.injEq, Prod.mk.injEq] at hok
    obtain ⟨hdb, -⟩ := hok
    subst hdb
    exact ⟨rfl, rfl, rfl, rfl⟩
  split at hok
  · exact absurd hok (by simp)
  split at hok
  · simp only [Except.ok.injEq, Prod.mk.injEq] at hok
    obtain ⟨hdb, -⟩ := hok
    subst hdb
    exact ⟨rfl, rfl, rfl, rfl⟩
  · simp only [Except.ok.injEq, Prod.mk.injEq] at hok
    obtain ⟨hdb, -⟩ := hok
    subst hdb
    exact ⟨rfl, rfl, rfl, rfl⟩

theorem inv_record {sha : String → String} {db : DB} {d : Int} {t : String}
    {db' : DB} {r : RecordResult} (hinv : Inv sha db)
    (hok : diff_and_record sha db d t = .ok (db', r)) : Inv sha db' := by
  obtain ⟨hbl, hpr, hhi, hsn⟩ := record_ok_fields hok
  refine ⟨⟨?_, ?_, ?_, ?_, ?_, ?_, ?_⟩, ?_⟩
  · rw [hsn]
    refine List.pairwise_append.mpr ⟨hinv.snapIds, List.pairwise_singleton _ _, ?_⟩
    intro a ha b hb
    simp only [List.mem_singleton] at hb
    subst hb
    exact Nat.ne_of_lt (freshId_gt (List.mem_map_of_mem _ ha))
  · rw [hpr]; exact hinv.propIds
  · rw [hsn]
    intro s hs
    rcases List.mem_append.mp hs with h | h
    · exact hinv.snapSha s h
    · simp only [List.mem_singleton] at h
      subst h
      rfl
  · rw [hbl]; exact hinv.blDev
  · rw [hbl, hsn]
    intro bl hbl2
    obtain ⟨s, hs, hid, hsha⟩ := hinv.blSnap bl hbl2
    exact ⟨s, List.mem_append_left _ hs, hid, hsha⟩
  · rw [hbl, hpr]; exact hinv.blProp
  · rw [hhi, hpr]; exact hinv.histProp
  · intro p hp hap
    rw [hpr] at hp
    have ht := hinv.apTracked p hp hap
    unfold TrackedIn at ht ⊢
    rw [hbl, hhi]
    exact ht

/-! ### Lemmas about the decide path -/

theorem archive_cases (db : DB) (dev : Int) :
    (db.baselines.find? (fun b => b.device_id == dev) = none ∧ archive db dev = db) ∨
    (∃ bl, db.baselines.find? (fun b => b.device_id == dev) = some bl ∧
      archive db dev =
        { db with
          history := db.history ++
            [⟨freshId (db.history.map (fun hr => hr.id)), dev, bl.snapshot_id, bl.sha256⟩],
          baselines := db.baselines.filter (fun b => !(b.device_id == dev)) }) := by
  unfold archive
  cases hbl : db.baselines.find? (fun b => b.device_id == dev) with
  | none => exact Or.inl ⟨rfl, rfl⟩
  | some bl => exact Or.inr ⟨bl, rfl, rfl⟩

theorem updateProposals_pairwise {props : List ProposalRow} {pid : Nat} {st u n : String}
    (h : props.Pairwise (fun p q => p.id ≠ q.id)) :
    (updateProposals props pid st u n).Pairwise (fun p q => p.id ≠ q.id) := by
  unfold updateProposals
  refine List.pairwise_map.mpr (h.imp ?_)
  intro a b hab
  have ha : (if a.id == pid then
      ({ a with status := st, decided_by := some u, decided_at := some n } : ProposalRow)
    else a).id = a.id := by split <;> rfl
  have hb : (if b.id == pid then
      ({ b with status := st, decided_by := some u, decided_at := some n } : ProposalRow)
    else b).id = b.id := by split <;> rfl
  rw [ha, hb]
  exact hab

theorem mem_updateProposals_of_ne {props : List ProposalRow} {pid : Nat} {st u n : String}
    {q : ProposalRow} (hq : q ∈ props) (hne : (q.id == pid) = false) :
    q ∈ updateProposals props pid st u n := by
  have h := List.mem_map_of_mem (fun p =>
    if p.id == pid then
      ({ p with status := st, decided_by := some u, decided_at := some n } : ProposalRow)
    else p) hq
  simpa [updateProposals, hne] using h

/-- A row that is no longer pending is untouched by the decide update, because
the updated row (the one found by id) is pending and ids are unique. -/
theorem nonpending_mem_updateProposals {props : List ProposalRow} {pid : Nat} {st u n : String}
    {prop : ProposalRow} (hpw : props.Pairwise (fun p q => p.id ≠ q.id))
    (hfind : props.find? (fun p => p.id == pid) = some prop) (hpend : prop.status = "pending")
    {q : ProposalRow} (hq : q ∈ props) (hqs : q.status ≠ "pending") :
    q ∈ updateProposals props pid st u n := by
  refine mem_updateProposals_of_ne hq ?_
  rw [beq_eq_false_iff_ne]
  intro he
  have hqp : q = prop := mem_eq_of_find? hpw hfind hq he
  exact hqs (by rw [hqp, hpend])

theorem mem_of_updateProposals {props : List ProposalRow} {pid : Nat} {st u n : String}
    {q : ProposalRow} (hq : q ∈ updateProposals props pid st u n) :
    ∃ p ∈ props, q = if p.id == pid then
      { p with status := st, decided_by := some u, decided_at := some n } else p := by
  obtain ⟨p, hp, hpq⟩ := List.mem_map.mp hq
  exact ⟨p, hp, hpq.symm⟩

theorem inv_promote {sha : String → String} {db : DB} {dev : Int} {sid : Nat} {user : String}
    {db' : DB} (hinv : InvCore sha db)
    (hap : ∀ p ∈ db.proposals, p.status = "approved" →
      TrackedIn db p ∨ (p.device_id = dev ∧ p.snapshot_id = sid))
    (happr : ∃ p ∈ db.proposals, p.status = "approved" ∧ p.device_id = dev ∧ p.snapshot_id = sid)
    (hok : promote db dev sid user = .ok db') : Inv sha db' := by
  unfold promote at hok
  simp only [] at hok
  rcases archive_cases db dev with ⟨hfind, hA⟩ | ⟨bl0, hfind, hA⟩
  · rw [hA] at hok
    split at hok
    · exact absurd hok (by simp)
    next srow hsrow =>
    split at hok
    · exact absurd hok (by simp)
    next htrig =>
    split at hok
    · exact absurd hok (by simp)
    next huniq =>
    simp only [Except.ok.injEq] at hok
    subst hok
    have srowm := List.mem_of_find?_eq_some hsrow
    have srowid := List.find?_some hsrow
    simp only [beq_iff_eq] at srowid
    simp only [Bool.not_eq_true, List.any_eq_false, beq_iff_eq] at htrig
    refine ⟨⟨hinv.snapIds, hinv.propIds, hinv.snapSha, ?_, ?_, ?_, hinv.histProp⟩, ?_⟩
    · refine List.pairwise_append.mpr ⟨hinv.blDev, List.pairwise_singleton _ _, ?_⟩
      intro a ha b hb
      simp only [List.mem_singleton] at hb
      subst hb
      exact htrig a ha
    · intro bl hbl
      rcases List.mem_append.mp hbl with h | h
      · exact hinv.blSnap bl h
      · simp only [List.mem_singleton] at h
        subst h
        exact ⟨srow, srowm, srowid, rfl⟩
    · intro bl hbl
      rcases List.mem_append.mp hbl with h | h
      · exact hinv.blProp bl h
      · simp only [List.mem_singleton] at h
        subst h
        exact happr
    · intro p hp hap2
      rcases hap p hp hap2 with ht | ⟨hdev, hsid⟩
      · rcases ht with ⟨bl, hbl, h1, h2⟩ | ⟨hr, hhr, h1, h2⟩
        · exact Or.inl ⟨bl, List.mem_append_left _ hbl, h1, h2⟩
        · exact Or.inr ⟨hr, hhr, h1, h2⟩
      · exact Or.inl ⟨⟨dev, sid, srow.sha256, user⟩,
          List.mem_append_right _ (by simp), hdev.symm, hsid.symm⟩
  · rw [hA] at hok
    split at hok
    · exact absurd hok (by simp)
    next srow hsrow =>
    split at hok
    · exact absurd hok (by simp)
    next htrig =>
    split at hok
    · exact absurd hok (by simp)
    next huniq =>
    simp only [Except.ok.injEq] at hok
    subst hok
    have hbl0m := List.mem_of_find?_eq_some hfind
    have hbl0d := List.find?_some hfind
    simp only [beq_iff_eq] at hbl0d
    have srowm := List.mem_of_find?_eq_some hsrow
    have srowid := List.find?_some hsrow
    simp only [beq_iff_eq] at srowid
    simp only [Bool.not_eq_true, List.any_eq_false, beq_iff_eq] at htrig
    refine ⟨⟨hinv.snapIds, hinv.propIds, hinv.snapSha, ?_, ?_, ?_, ?_⟩, ?_⟩
    · refine List.pairwise_append.mpr
        ⟨List.Pairwise.sublist (List.filter_sublist _) hinv.blDev,
          List.pairwise_singleton _ _, ?_⟩
      intro a ha b hb
      simp only [List.mem_singleton] at hb
      subst hb
      exact htrig a ha
    · intro bl hbl
      rcases List.mem_append.mp hbl with h | h
      · exact hinv.blSnap bl (List.mem_of_mem_filter h)
      · simp only [List.mem_singleton] at h
        subst h
        exact ⟨srow, srowm, srowid, rfl⟩
    · intro bl hbl
      rcases List.mem_append.mp hbl with h | h
      · exact hinv.blProp bl (List.mem_of_mem_filter h)
      · simp only [List.mem_singleton] at h
        subst h
        exact happr
    · intro hr hhr
      rcases List.mem_append.mp hhr with h | h
      · exact hinv.histProp hr h
      · simp only [List.mem_singleton] at h
        subst h
        obtain ⟨q, hq, hqst, hqdev, hqsid⟩ := hinv.blProp bl0 hbl0m
        refine ⟨q, hq, hqst, ?_, hqsid⟩
        show q.device_id = dev
        rw [hqdev, hbl0d]
    · intro p hp hap2
      rcases hap p hp hap2 with ht | ⟨hdev, hsid⟩
      · rcases ht with ⟨bl, hblm, h1, h2⟩ | ⟨hr, hhr, h1, h2⟩
        · by_cases hd : bl.device_id = dev
          · have hbleq : bl = bl0 :=
              pairwise_key_eq hinv.blDev hblm hbl0m (hd.trans hbl0d.symm)
            refine Or.inr ⟨⟨freshId (db.history.map (fun hr => hr.id)), dev,
              bl0.snapshot_id, bl0.sha256⟩, List.mem_append_right _ (by simp), ?_, ?_⟩
            · show dev = p.device_id
              rw [← hd, h1]
            · show bl0.snapshot_id = p.snapshot_id
              rw [← hbleq, h2]
          · refine Or.inl ⟨bl,
              List.mem_append_left _ (List.mem_filter.mpr ⟨hblm, ?_⟩), h1, h2⟩
            simp [hd]
        · exact Or.inr ⟨hr, List.mem_append_left _ hhr, h1, h2⟩
      · exact Or.inl ⟨⟨dev, sid, srow.sha256, user⟩,
          List.mem_append_right _ (by simp), hdev.symm, hsid.symm⟩

theorem inv_decide {sha : String → String} {db : DB} {pid : Nat} {action user now : String}
    {db' : DB} {st : String} (hinv : Inv sha db)
    (hok : decide_proposal sha db pid action user now = .ok (db', st)) : Inv sha db' := by
  unfold decide_proposal at hok
  split at hok
  · exact absurd hok (by simp)
  next havalid =>
  split at hok
  · exact absurd hok (by simp)
  next prop hfind =>
  split at hok
  · exact absurd hok (by simp)
  next hpend =>
  split at hok
  · exact absurd hok (by simp)
  next hself =>
  simp only [] at hok
  have hpendeq : prop.status = "pending" := not_not.mp hpend
  have hpb := List.find?_some hfind
  have hpm := List.mem_of_find?_eq_some hfind
  have hcore1 : ∀ stv uv nv, InvCore sha
      { db with proposals := updateProposals db.proposals pid stv uv nv } := by
    intro stv uv nv
    refine ⟨hinv.snapIds, updateProposals_pairwise hinv.propIds, hinv.snapSha,
      hinv.blDev, hinv.blSnap, ?_, ?_⟩
    · intro bl hbl
      obtain ⟨q, hq, hqst, hqdev, hqsid⟩ := hinv.blProp bl hbl
      refine ⟨q, ?_, hqst, hqdev, hqsid⟩
      exact nonpending_mem_updateProposals hinv.propIds hfind hpendeq hq
        (by rw [hqst]; decide)
    · intro hr hhr
      obtain ⟨q, hq, hqst, hqdev, hqsid⟩ := hinv.histProp hr hhr
      refine ⟨q, ?_, hqst, hqdev, hqsid⟩
      exact nonpending_mem_updateProposals hinv.propIds hfind hpendeq hq
        (by rw [hqst]; decide)
  by_cases hact : action = "approve"
  · subst hact
    rw [if_pos rfl, if_pos rfl] at hok
    split at hok
    next db2 hprom =>
      simp only [Except.ok.injEq, Prod.mk.injEq] at hok
      obtain ⟨hdb, -⟩ := hok
      subst hdb
      refine inv_promote (hcore1 "approved" user now) ?_ ?_ hprom
      · intro p hp hap2
        obtain ⟨q, hq, heq⟩ := mem_of_updateProposals hp
        by_cases hqid : (q.id == pid) = true
        · have hqprop : q = prop := mem_eq_of_find? hinv.propIds hfind hq (eq_of_beq hqid)
          subst hqprop
          rw [if_pos hqid] at heq
          subst heq
          exact Or.inr ⟨rfl, rfl⟩
        · rw [if_neg hqid] at heq
          subst heq
          exact Or.inl (hinv.apTracked p hq hap2)
      · refine ⟨{ prop with status := "approved", decided_by := some user, decided_at := some now }, ?_, rfl, rfl, rfl⟩
        have h := List.mem_map_of_mem (fun p =>
          if p.id == pid then ({ p with status := "approved", decided_by := some user, decided_at := some now } : ProposalRow)
          else p) hpm
        simpa [updateProposals, hpb] using h
    next e hprom => exact absurd hok (by simp)
  · have hrej : action = "reject" := by
      rcases not_and_or.mp havalid with h | h
      · exact absurd (not_not.mp h) hact
      · exact not_not.mp h
    subst hrej
    have hne1 : ¬(("reject" : String) = "approve") := by decide
    have hne2 : ¬(("rejected" : String) = "approved") := by decide
    rw [if_neg hne1, if_neg hne2] at hok
    simp only [Except.ok.injEq, Prod.mk.injEq] at hok
    obtain ⟨hdb, -⟩ := hok
    subst hdb
    refine ⟨hcore1 "rejected" user now, ?_⟩
    intro p hp hap2
    obtain ⟨q, hq, heq⟩ := mem_of_updateProposals hp
    by_cases hqid : (q.id == pid) = true
    · rw [if_pos hqid] at heq
      subst heq
      exact absurd hap2 (by simp)
    · rw [if_neg hqid] at heq
      subst heq
      exact hinv.apTracked p hq hap2

/-- A committed create_proposal appends one snapshot row and one pending
proposal row and changes nothing else. -/
theorem create_ok_fields {sha : String → String} {db : DB} {d : Int} {t c u : String}
    {db' : DB} {pid : Nat} (hok : create_proposal sha db d t c u = .ok (db', pid)) :
    db'.baselines = db.baselines ∧ db'.history = db.history ∧
    (∃ snap, db'.snapshots = db.snapshots ++ [snap]) ∧
    (∃ pr, pr.status = "pending" ∧ db'.proposals = db.proposals ++ [pr]) := by
  unfold create_proposal at hok
  split at hok
  · exact absurd hok (by simp)
  simp only [] at hok
  split at hok
  · exact absurd hok (by simp)
  simp only [Except.ok.injEq, Prod.mk.injEq] at hok
  obtain ⟨hdb, -⟩ := hok
  subst hdb
  exact ⟨rfl, rfl, ⟨_, rfl⟩, ⟨_, rfl, rfl⟩⟩

/-- A committed promotion does not change the Proposal table. -/
theorem promote_ok_proposals {db : DB} {dev : Int} {sid : Nat} {user : String} {db' : DB}
    (hok : promote db dev sid user = .ok db') : db'.proposals = db.proposals := by
  unfold promote at hok
  simp only [] at hok
  rcases archive_cases db dev with ⟨hfind, hA⟩ | ⟨bl0, hfind, hA⟩ <;> rw [hA] at hok
  · split at hok
    · exact absurd hok (by simp)
    split at hok
    · exact absurd hok (by simp)
    split at hok
    · exact absurd hok (by simp)
    simp only [Except.ok.injEq] at hok
    subst hok
    rfl
  · split at hok
    · exact absurd hok (by simp)
    split at hok
    · exact absurd hok (by simp)
    split at hok
    · exact absurd hok (by simp)
    simp only [Except.ok.injEq] at hok
    subst hok
    rfl

/-- A committed decide updates the proposals table through updateProposals on
a found pending proposal, leaving the other rows of the table to be the old
ones. -/
theorem decide_ok_proposals {sha : String → String} {db : DB} {pid : Nat}
    {action user now : String} {db' : DB} {st : String}
    (hok : decide_proposal sha db pid action user now = .ok (db', st)) :
    ∃ prop stv, db.proposals.find? (fun p => p.id == pid) = some prop ∧
      prop.status = "pending" ∧
      db'.proposals = updateProposals db.proposals pid stv user now := by
  unfold decide_proposal at hok
  split at hok
  · exact absurd hok (by simp)
  next havalid =>
  split at hok
  · exact absurd hok (by simp)
  next prop hfind =>
  split at hok
  · exact absurd hok (by simp)
  next hpend =>
  split at hok
  · exact absurd hok (by simp)
  next hself =>
  simp only [] at hok
  have hpendeq : prop.status = "pending" := not_not.mp hpend
  by_cases hact : action = "approve"
  · subst hact
    rw [if_pos rfl, if_pos rfl] at hok
    split at hok
    next db2 hprom =>
      simp only [Except.ok.injEq, Prod.mk.injEq] at hok
      obtain ⟨hdb, -⟩ := hok
      subst hdb
      exact ⟨prop, "approved", hfind, hpendeq, promote_ok_proposals hprom⟩
    next e hprom => exact absurd hok (by simp)
  · have hrej : action = "reject" := by
      rcases not_and_or.mp havalid with h | h
      · exact absurd (not_not.mp h) hact
      · exact not_not.mp h
    subst hrej
    have hne1 : ¬(("reject" : String) = "approve") := by decide
    have hne2 : ¬(("rejected" : String) = "approved") := by decide
    rw [if_neg hne1, if_neg hne2] at hok
    simp only [Except.ok.injEq, Prod.mk.injEq] at hok
    obtain ⟨hdb, -⟩ := hok
    subst hdb
    exact ⟨prop, "rejected", hfind, hpendeq, rfl⟩

theorem inv_step {sha : String → String} {db : DB} (hinv : Inv sha db) (op : Op) :
    Inv sha (step sha db op) := by
  cases op with
  | propose d t c u =>
    simp only [step]
    cases hc : create_proposal sha db d t c u with
    | ok r =>
      obtain ⟨db1, pid⟩ := r
      exact inv_create hinv hc
    | error e => exact hinv
  | decide pid a u n =>
    simp only [step]
    cases hc : decide_proposal sha db pid a u n with
    | ok r =>
      obtain ⟨db1, st⟩ := r
      exact inv_decide hinv hc
    | error e => exact hinv
  | record d t =>
    simp only [step]
    cases hc : diff_and_record sha db d t with
    | ok r =>
      obtain ⟨db1, res⟩ := r
      exact inv_record hinv hc
    | error e => exact hinv

theorem inv_execFrom {sha : String → String} {db : DB} (hinv : Inv sha db) (ops : List Op) :
    Inv sha (execFrom sha db ops) := by
  induction ops generalizing db with
  | nil => exact hinv
  | cons op rest ih => exact ih (inv_step hinv op)

theorem inv_execOps (sha : String → String) (ops : List Op) : Inv sha (execOps sha ops) :=
  inv_execFrom (inv_init sha) ops

/-- A proposal row that left the pending state is never touched again by any
operation. -/
theorem nonpending_mem_step {sha : String → String} {db : DB} {p : ProposalRow}
    (hinv : Inv sha db) (hmem : p ∈ db.proposals) (hnp : p.status ≠ "pending") (op : Op) :
    p ∈ (step sha db op).proposals := by
  cases op with
  | propose d t c u =>
    simp only [step]
    cases hc : create_proposal sha db d t c u with
    | ok r =>
      obtain ⟨db1, pid⟩ := r
      obtain ⟨-, -, -, pr, -, hpr⟩ := create_ok_fields hc
      rw [hpr]
      exact List.mem_append_left _ hmem
    | error e => exact hmem
  | decide pid a u n =>
    simp only [step]
    cases hc : decide_proposal sha db pid a u n with
    | ok r =>
      obtain ⟨db1, st⟩ := r
      obtain ⟨prop, stv, hfind, hpend, hprops⟩ := decide_ok_proposals hc
      rw [hprops]
      exact nonpending_mem_updateProposals hinv.propIds hfind hpend hmem hnp
    | error e => exact hmem
  | record d t =>
    simp only [step]
    cases hc : diff_and_record sha db d t with
    | ok r =>
      obtain ⟨db1, res⟩ := r
      obtain ⟨-, hpr, -, -⟩ := record_ok_fields hc
      rw [hpr]
      exact hmem
    | error e => exact hmem

theorem nonpending_mem_execFrom {sha : String → String} {db : DB} {p : ProposalRow}
    (hinv : Inv sha db) (hmem : p ∈ db.proposals) (hnp : p.status ≠ "pending")
    (ops : List Op) : p ∈ (execFrom sha db ops).proposals := by
  induction ops generalizing db with
  | nil => exact hmem
  | cons op rest ih => exact ih (inv_step hinv op) (nonpending_mem_step hinv hmem hnp op)

/-! ### The claims -/

/-- C1: in every state reachable by any sequence of the core's operations
(propose, decide, record/diff_and_record), each device_id has at most one
Baseline row: exactly 0 or 1 per device at all times. -/
theorem C1_baseline_singleton (sha : String → String) (ops : List Op) (d : Int) :
    ((execOps sha ops).baselines.filter (fun b => b.device_id == d)).length ≤ 1 :=
  length_filter_le_one_of_pairwise (inv_execOps sha ops).blDev d

/-- C7: if any line given to the classifier contains a critical keyword the
classification is critical regardless of how many warn-keyword lines are
present or their order; warn is returned only when no line matches a critical
keyword and some line matches a warn keyword; with no keyword match at all,
including the empty diff, the result is info. -/
theorem C7_severity_precedence (lines : List String) :
    ((∃ l ∈ lines, CRITICAL_KEYS.any (fun k => strContains (pyLower l) k) = true) →
      classify_severity lines = "critical") ∧
    (classify_severity lines = "warn" →
      (∀ l ∈ lines, ¬ CRITICAL_KEYS.any (fun k => strContains (pyLower l) k) = true) ∧
      (∃ l ∈ lines, WARN_KEYS.any (fun k => strContains (pyLower l) k) = true)) ∧
    ((∀ l ∈ lines, ¬ CRITICAL_KEYS.any (fun k => strContains (pyLower l) k) = true ∧
        ¬ WARN_KEYS.any (fun k => strContains (pyLower l) k) = true) →
      classify_severity lines = "info") ∧
    classify_severity [] = "info" := by
  refine ⟨?_, ?_, ?_, rfl⟩
  · intro ⟨l, hl, hcrit⟩
    have hc : lines.any (fun line => CRITICAL_KEYS.any fun k => strContains (pyLower line) k)
        = true := List.any_eq_true.mpr ⟨l, hl, hcrit⟩
    simp [classify_severity, hc]
  · intro hwarn
    unfold classify_severity at hwarn
    by_cases hc : lines.any (fun line => CRITICAL_KEYS.any fun k => strContains (pyLower line) k)
        = true
    · rw [if_pos hc] at hwarn
      exact absurd hwarn (by decide)
    · constructor
      · intro l hl hcrit
        exact hc (List.any_eq_true.mpr ⟨l, hl, hcrit⟩)
      · rw [if_neg hc] at hwarn
        by_cases hw : lines.any (fun line => WARN_KEYS.any fun k => strContains (pyLower line) k)
            = true
        · exact List.any_eq_true.mp hw
        · rw [if_neg hw] at hwarn
          exact absurd hwarn (by decide)
  · intro h
    have hc : lines.any (fun line => CRITICAL_KEYS.any fun k => strContains (pyLower line) k)
        = false := List.any_eq_false.mpr (fun l hl => (h l hl).1)
    have hw : lines.any (fun line => WARN_KEYS.any fun k => strContains (pyLower line) k)
        = false := List.any_eq_false.mpr (fun l hl => (h l hl).2)
    simp [classify_severity, hc, hw]

/-- Witness for C7: a diff with both a hostname change and an interface line
classifies as critical, and the empty diff as info. -/
theorem C7_severity_precedence_witness :
    classify_severity ["-hostname a", "+interface Gi0"] = "critical" ∧
    classify_severity [] = "info" :=
  ⟨(C7_severity_precedence ["-hostname a", "+interface Gi0"]).1 (by decide),
   (C7_severity_precedence []).2.2.2⟩

/-- C8: recording a snapshot for a device with no active baseline still
inserts the snapshot, returns severity info with diff stats 0/0 and the new
snapshot id, and creates no DeviationEvent row. -/
theorem C8_no_baseline_info (sha : String → String) (db : DB) (d : Int) (t : String)
    (hnb : ∀ bl ∈ db.baselines, bl.device_id ≠ d) :
    diff_and_record sha db d t =
      .ok ({ db with snapshots := db.snapshots ++
              [⟨freshId (db.snapshots.map (fun s => s.id)), d, t, sha t⟩] },
           ⟨"info", 0, 0, freshId (db.snapshots.map (fun s => s.id))⟩) := by
  have hfind : db.baselines.find? (fun b => b.device_id == d) = none :=
    List.find?_eq_none.mpr (fun b hb => by simp [hnb b hb])
  simp only [diff_and_record, hfind]

/-- Witness for C8: the very first record call on a fresh database. -/
theorem C8_no_baseline_info_witness :
    diff_and_record (fun t => t) DB.init 3 "hello" =
      .ok (⟨[⟨1, 3, "hello", "hello"⟩], [], [], [], []⟩, ⟨"info", 0, 0, 1⟩) :=
  C8_no_baseline_info (fun t => t) DB.init 3 "hello" (by simp [DB.init])

/-- C2 counterexample: after bob approves alice's proposal (a reachable
state), a further decide call on it by alice, the proposer, fails with the
already-decided BadRequest (HTTP 400), not with Forbidden (HTTP 403), so
decide with actor = proposed_by does not always fail with Forbidden. -/
theorem C2_counterexample :
    (execOps (fun t => t) [.propose 1 "cfgA" "" "alice", .decide 1 "approve" "bob" "t1"]).proposals.map
        (fun p => (p.id, p.proposed_by, p.status)) = [(1, "alice", "approved")] ∧
    decide_proposal (fun t => t)
        (execOps (fun t => t) [.propose 1 "cfgA" "" "alice", .decide 1 "approve" "bob" "t1"])
        1 "approve" "alice" "t2" =
      .error (.badRequest "Proposal already decided") := by
  exact ⟨rfl, rfl⟩

/-- C2 (amended): for every PENDING proposal and both actions, a decide call
whose actor equals the proposal's proposed_by fails with Forbidden (403),
regardless of the requested action. -/
theorem C2_self_decide_forbidden (sha : String → String) (db : DB) (pid : Nat)
    (action user now : String) (prop : ProposalRow)
    (hfind : db.proposals.find? (fun p => p.id == pid) = some prop)
    (hpend : prop.status = "pending") (hself : prop.proposed_by = user)
    (haction : action = "approve" ∨ action = "reject") :
    decide_proposal sha db pid action user now =
      .error (.forbidden "Proposer cannot self-approve/reject") := by
  rcases haction with h | h <;> subst h <;> simp [decide_proposal, hfind, hpend, hself]

/-- Witness for C2 (amended): alice cannot decide her own pending proposal. -/
theorem C2_self_decide_forbidden_witness :
    decide_proposal (fun t => t) (execOps (fun t => t) [.propose 1 "cfgA" "" "alice"])
        1 "reject" "alice" "t2" =
      .error (.forbidden "Proposer cannot self-approve/reject") :=
  C2_self_decide_forbidden (fun t => t) _ 1 "reject" "alice" "t2"
    ⟨1, 1, 1, "", "alice", "pending", none, none⟩ (by decide) rfl rfl (Or.inr rfl)

/-- C4: a proposal whose status is approved or rejected is terminal: every
further decide call on it fails with the already-decided BadRequest, and no
later sequence of operations ever removes or modifies the row (its status,
decided_by and decided_at included). -/
theorem C4_terminal_immutable (sha : String → String) (ops : List Op) (p : ProposalRow)
    (hmem : p ∈ (execOps sha ops).proposals)
    (hterm : p.status = "approved" ∨ p.status = "rejected") :
    (∀ action user now, action = "approve" ∨ action = "reject" →
      decide_proposal sha (execOps sha ops) p.id action user now =
        .error (.badRequest "Proposal already decided")) ∧
    (∀ more, p ∈ (execFrom sha (execOps sha ops) more).proposals ∧
      ∀ q ∈ (execFrom sha (execOps sha ops) more).proposals, q.id = p.id → q = p) := by
  have hinv := inv_execOps sha ops
  have hnp : p.status ≠ "pending" := by
    rcases hterm with h | h <;> rw [h] <;> decide
  have hfind : (execOps sha ops).proposals.find? (fun q => q.id == p.id) = some p :=
    find?_eq_self_of_mem hinv.propIds hmem
  constructor
  · intro action user now haction
    rcases haction with h | h <;> subst h <;> simp [decide_proposal, hfind, hnp]
  · intro more
    have hm := nonpending_mem_execFrom hinv hmem hnp more
    refine ⟨hm, ?_⟩
    intro q hq hid
    exact pairwise_key_eq (inv_execFrom hinv more).propIds hq hm hid

/-- Witness for C4: the approved proposal of a reachable state survives a
further operation unchanged, and deciding it again fails as already decided. -/
theorem C4_terminal_immutable_witness :
    decide_proposal (fun t => t)
        (execOps (fun t => t) [.propose 1 "cfgA" "" "alice", .decide 1 "approve" "bob" "t1"])
        1 "approve" "carol" "t3" =
      .error (.badRequest "Proposal already decided") ∧
    (⟨1, 1, 1, "", "alice", "approved", some "bob", some "t1"⟩ : ProposalRow) ∈
      (execFrom (fun t => t)
        (execOps (fun t => t) [.propose 1 "cfgA" "" "alice", .decide 1 "approve" "bob" "t1"])
        [.record 1 "other"]).proposals := by
  have h := C4_terminal_immutable (fun t => t)
    [.propose 1 "cfgA" "" "alice", .decide 1 "approve" "bob" "t1"]
    ⟨1, 1, 1, "", "alice", "approved", some "bob", some "t1"⟩ (by decide) (Or.inl rfl)
  exact ⟨h.1 "approve" "carol" "t3" (Or.inl rfl), (h.2 [.record 1 "other"]).1⟩

/-- C5 counterexample: an empty snapshot text can be ingested by record, so
device 1 has a ConfigSnapshot row whose hash is sha("") in a reachable state,
yet proposing the empty text fails with the missing-field BadRequest (400)
raised before the duplicate check, not with Conflict (409). -/
theorem C5_counterexample :
    (execOps (fun t => t) [.record 1 ""]).snapshots.map (fun s => (s.device_id, s.sha256)) =
      [((1 : Int), "")] ∧
    create_proposal (fun t => t) (execOps (fun t => t) [.record 1 ""]) 1 "" "c" "u" =
      .error (.badRequest "'snapshot' text required") := by
  exact ⟨rfl, rfl⟩

/-- C5 (amended): for every NON-EMPTY text t, if any ConfigSnapshot row of
the device already carries hash sha(t) — whether it came from a proposal or a
plain record ingestion — propose fails with Conflict and writes nothing; for
a device none of whose snapshots carry hash sha(t), propose succeeds. -/
theorem C5_duplicate_conflict (sha : String → String) :
    (∀ (db : DB) (d : Int) (t c u : String), t ≠ "" →
      (∃ s ∈ db.snapshots, s.device_id = d ∧ s.sha256 = sha t) →
      create_proposal sha db d t c u = .error (.conflict "identical snapshot already exists") ∧
      step sha db (.propose d t c u) = db) ∧
    (∀ (db : DB) (d : Int) (t c u : String), t ≠ "" →
      (∀ s ∈ db.snapshots, s.device_id = d → s.sha256 ≠ sha t) →
      create_proposal sha db d t c u =
        .ok ({ db with
                snapshots := db.snapshots ++
                  [⟨freshId (db.snapshots.map (fun s => s.id)), d, t, sha t⟩],
                proposals := db.proposals ++
                  [⟨freshId (db.proposals.map (fun p => p.id)), d,
                    freshId (db.snapshots.map (fun s => s.id)), c, u, "pending", none, none⟩] },
             freshId (db.proposals.map (fun p => p.id)))) := by
  constructor
  · rintro db d t c u ht ⟨s, hs, hdev, hsha⟩
    have hfind : ∃ s1, db.snapshots.find?
        (fun s => s.device_id == d && s.sha256 == sha t) = some s1 := by
      cases hcase : db.snapshots.find? (fun s => s.device_id == d && s.sha256 == sha t) with
      | some s1 => exact ⟨s1, rfl⟩
      | none =>
        have hcon := List.find?_eq_none.mp hcase s hs
        simp [hdev, hsha] at hcon
    obtain ⟨s1, hs1⟩ := hfind
    constructor
    · simp [create_proposal, ht, hs1]
    · simp [step, create_proposal, ht, hs1]
  · intro db d t c u ht hno
    have hfind : db.snapshots.find? (fun s => s.device_id == d && s.sha256 == sha t) = none := by
      rw [List.find?_eq_none]
      intro s hs hcon
      simp only [Bool.and_eq_true, beq_iff_eq] at hcon
      exact hno s hs hcon.1 hcon.2
    simp only [create_proposal, if_neg ht, hfind]

/-- Witness for C5 (amended): after recording "cfg" for device 1, proposing
"cfg" again for device 1 conflicts and commits nothing, while proposing the
same text for device 2 succeeds. -/
theorem C5_duplicate_conflict_witness :
    (create_proposal (fun t => t) (execOps (fun t => t) [.record 1 "cfg"]) 1 "cfg" "c" "u" =
        .error (.conflict "identical snapshot already exists") ∧
      step (fun t => t) (execOps (fun t => t) [.record 1 "cfg"]) (.propose 1 "cfg" "c" "u") =
        execOps (fun t => t) [.record 1 "cfg"]) ∧
    create_proposal (fun t => t) (execOps (fun t => t) [.record 1 "cfg"]) 2 "cfg" "c" "u" =
      .ok (⟨[⟨1, 1, "cfg", "cfg"⟩, ⟨2, 2, "cfg", "cfg"⟩], [], [],
            [⟨1, 2, 2, "c", "u", "pending", none, none⟩], []⟩, 1) := by
  have h := C5_duplicate_conflict (fun t => t)
  exact ⟨h.1 (execOps (fun t => t) [.record 1 "cfg"]) 1 "cfg" "c" "u" (by decide) (by decide),
    h.2 (execOps (fun t => t) [.record 1 "cfg"]) 2 "cfg" "c" "u" (by decide) (by decide)⟩

/-- C3: in every reachable committed state no proposal is marked approved
without its baseline change recorded (active baseline or archived history row
for its device and snapshot) and no Baseline row exists without a matching
approved proposal; moreover a decide call that fails commits nothing: the
state is unchanged. -/
theorem C3_decide_atomic (sha : String → String) (ops : List Op) :
    (∀ p ∈ (execOps sha ops).proposals, p.status = "approved" →
      (∃ bl ∈ (execOps sha ops).baselines,
        bl.device_id = p.device_id ∧ bl.snapshot_id = p.snapshot_id) ∨
      (∃ hr ∈ (execOps sha ops).history,
        hr.device_id = p.device_id ∧ hr.snapshot_id = p.snapshot_id)) ∧
    (∀ bl ∈ (execOps sha ops).baselines, ∃ p ∈ (execOps sha ops).proposals,
      p.status = "approved" ∧ p.device_id = bl.device_id ∧ p.snapshot_id = bl.snapshot_id) ∧
    (∀ (db : DB) (pid : Nat) (action user now : String) (e : Err),
      decide_proposal sha db pid action user now = .error e →
      step sha db (.decide pid action user now) = db) := by
  refine ⟨(inv_execOps sha ops).apTracked, (inv_execOps sha ops).blProp, ?_⟩
  intro db pid action user now e he
  simp [step, he]

/-- Witness for C3: the approved proposal of a reachable state has its
snapshot as the active baseline, and a failing decide (missing proposal)
leaves the fresh database unchanged. -/
theorem C3_decide_atomic_witness :
    ((∃ bl ∈ (execOps (fun t => t) [.propose 1 "cfgA" "" "alice", .decide 1 "approve" "bob" "t1"]).baselines,
        bl.device_id = (1 : Int) ∧ bl.snapshot_id = 1) ∨
      (∃ hr ∈ (execOps (fun t => t) [.propose 1 "cfgA" "" "alice", .decide 1 "approve" "bob" "t1"]).history,
        hr.device_id = (1 : Int) ∧ hr.snapshot_id = 1)) ∧
    step (fun t => t) DB.init (.decide 5 "approve" "bob" "t") = DB.init := by
  have h := C3_decide_atomic (fun t => t) [.propose 1 "cfgA" "" "alice", .decide 1 "approve" "bob" "t1"]
  exact ⟨h.1 ⟨1, 1, 1, "", "alice", "approved", some "bob", some "t1"⟩ (by decide) rfl,
    h.2.2 DB.init 5 "approve" "bob" "t" (.notFound "Proposal not found") rfl⟩

/-- C10: in every reachable state, every Baseline row's sha256 equals the
hash of the text of the unique ConfigSnapshot row its snapshot_id
references. -/
theorem C10_baseline_hash_consistent (sha : String → String) (ops : List Op)
    (bl : BaselineRow) (hbl : bl ∈ (execOps sha ops).baselines) :
    ∃ s ∈ (execOps sha ops).snapshots, s.id = bl.snapshot_id ∧ bl.sha256 = sha s.text ∧
      ∀ s1 ∈ (execOps sha ops).snapshots, s1.id = bl.snapshot_id → s1 = s := by
  have hinv := inv_execOps sha ops
  obtain ⟨s, hs, hid, hsha⟩ := hinv.blSnap bl hbl
  refine ⟨s, hs, hid, ?_, ?_⟩
  · rw [hsha, hinv.snapSha s hs]
  · intro s1 hs1 hid1
    exact pairwise_key_eq hinv.snapIds hs1 hs (hid1.trans hid.symm)

/-- Witness for C10 at the baseline created by one approved proposal. -/
theorem C10_baseline_hash_consistent_witness :
    ∃ s ∈ (execOps (fun t => t) [.propose 1 "cfgA" "" "alice", .decide 1 "approve" "bob" "t1"]).snapshots,
      s.id = 1 ∧ "cfgA" = (fun t : String => t) s.text ∧
      ∀ s1 ∈ (execOps (fun t => t) [.propose 1 "cfgA" "" "alice", .decide 1 "approve" "bob" "t1"]).snapshots,
        s1.id = 1 → s1 = s :=
  C10_baseline_hash_consistent (fun t => t)
    [.propose 1 "cfgA" "" "alice", .decide 1 "approve" "bob" "t1"]
    ⟨1, 1, "cfgA", "bob"⟩ (by decide)

/-- C9: after approving one proposal for a device and then approving a
second, distinct proposal for the same device, the first baseline's data
(device_id, snapshot_id, content hash) has been copied into BaselineHistory,
the active Baseline row references the second proposal's snapshot, and
BaselineHistory contains exactly one row. -/
theorem C9_second_approval_archives (sha : String → String) (d : Int)
    (t1 t2 c1 c2 a b n1 n2 : String) (h1 : t1 ≠ "") (h2 : t2 ≠ "")
    (hsha : sha t1 ≠ sha t2) (hab : a ≠ b) :
    (execOps sha [.propose d t1 c1 a, .decide 1 "approve" b n1,
        .propose d t2 c2 a, .decide 2 "approve" b n2]).history.map
      (fun hr => (hr.device_id, hr.snapshot_id, hr.sha256)) = [(d, 1, sha t1)] ∧
    (execOps sha [.propose d t1 c1 a, .decide 1 "approve" b n1,
        .propose d t2 c2 a, .decide 2 "approve" b n2]).baselines.map
      (fun bl => (bl.device_id, bl.snapshot_id, bl.sha256)) = [(d, 2, sha t2)] := by
  have e1 : step sha DB.init (.propose d t1 c1 a) =
      ⟨[⟨1, d, t1, sha t1⟩], [], [], [⟨1, d, 1, c1, a, "pending", none, none⟩], []⟩ := by
    simp [step, create_proposal, h1, DB.init, freshId]
  have e2 : step sha (⟨[⟨1, d, t1, sha t1⟩], [], [],
        [⟨1, d, 1, c1, a, "pending", none, none⟩], []⟩ : DB) (.decide 1 "approve" b n1) =
      ⟨[⟨1, d, t1, sha t1⟩], [⟨d, 1, sha t1, b⟩], [],
        [⟨1, d, 1, c1, a, "approved", some b, some n1⟩], []⟩ := by
    simp [step, decide_proposal, promote, archive, updateProposals, freshId, hab]
  have e3 : step sha (⟨[⟨1, d, t1, sha t1⟩], [⟨d, 1, sha t1, b⟩], [],
        [⟨1, d, 1, c1, a, "approved", some b, some n1⟩], []⟩ : DB) (.propose d t2 c2 a) =
      ⟨[⟨1, d, t1, sha t1⟩, ⟨2, d, t2, sha t2⟩], [⟨d, 1, sha t1, b⟩], [],
        [⟨1, d, 1, c1, a, "approved", some b, some n1⟩,
          ⟨2, d, 2, c2, a, "pending", none, none⟩], []⟩ := by
    simp [step, create_proposal, h2, hsha, freshId]
  have e4 : step sha (⟨[⟨1, d, t1, sha t1⟩, ⟨2, d, t2, sha t2⟩], [⟨d, 1, sha t1, b⟩], [],
        [⟨1, d, 1, c1, a, "approved", some b, some n1⟩,
          ⟨2, d, 2, c2, a, "pending", none, none⟩], []⟩ : DB) (.decide 2 "approve" b n2) =
      ⟨[⟨1, d, t1, sha t1⟩, ⟨2, d, t2, sha t2⟩], [⟨d, 2, sha t2, b⟩], [⟨1, d, 1, sha t1⟩],
        [⟨1, d, 1, c1, a, "approved", some b, some n1⟩,
          ⟨2, d, 2, c2, a, "approved", some b, some n2⟩], []⟩ := by
    simp [step, decide_proposal, promote, archive, updateProposals, freshId, hab]
  have hrun : execOps sha [.propose d t1 c1 a, .decide 1 "approve" b n1,
      .propose d t2 c2 a, .decide 2 "approve" b n2] =
      ⟨[⟨1, d, t1, sha t1⟩, ⟨2, d, t2, sha t2⟩], [⟨d, 2, sha t2, b⟩], [⟨1, d, 1, sha t1⟩],
        [⟨1, d, 1, c1, a, "approved", some b, some n1⟩,
          ⟨2, d, 2, c2, a, "approved", some b, some n2⟩], []⟩ := by
    simp only [execOps, execFrom, List.foldl_cons, List.foldl_nil]
    rw [e1, e2, e3, e4]
  rw [hrun]
  exact ⟨rfl, rfl⟩

/-- Witness for C9 with device 7, texts "x" and "y", proposer "a", decider
"b". -/
theorem C9_second_approval_archives_witness :
    (execOps (fun t => t) [.propose 7 "x" "" "a", .decide 1 "approve" "b" "n1",
        .propose 7 "y" "" "a", .decide 2 "approve" "b" "n2"]).history.map
      (fun hr => (hr.device_id, hr.snapshot_id, hr.sha256)) = [((7 : Int), 1, "x")] ∧
    (execOps (fun t => t) [.propose 7 "x" "" "a", .decide 1 "approve" "b" "n1",
        .propose 7 "y" "" "a", .decide 2 "approve" "b" "n2"]).baselines.map
      (fun bl => (bl.device_id, bl.snapshot_id, bl.sha256)) = [((7 : Int), 2, "y")] :=
  C9_second_approval_archives (fun t => t) 7 "x" "y" "" "" "a" "b" "n1" "n2"
    (by decide) (by decide) (by decide) (by decide)

/-- C6 (code bug evidence): with active baseline "interface Lo0\nhostname a"
for device 1, recording "interface Lo0\nhostname b" produces a unified diff
whose only added/removed lines are the hostname lines — classified warn on
their own — but diff_and_record classifies the entire diff including the
unchanged context line " interface Lo0", so the committed DeviationEvent is
critical: the classification is not a function of the added/removed lines
only. -/
theorem C6_context_lines_change_severity :
    unifiedDiff (splitlines "interface Lo0\nhostname a")
        (splitlines "interface Lo0\nhostname b") =
      ["--- ", "+++ ", "@@ -1,2 +1,2 @@", " interface Lo0", "-hostname a", "+hostname b"] ∧
    (["--- ", "+++ ", "@@ -1,2 +1,2 @@", " interface Lo0", "-hostname a",
        "+hostname b"].filter (fun ln => (pyStartsWith ln "+" && !pyStartsWith ln "+++") ||
          (pyStartsWith ln "-" && !pyStartsWith ln "---"))) = ["-hostname a", "+hostname b"] ∧
    classify_severity ["-hostname a", "+hostname b"] = "warn" ∧
    classify_severity ["--- ", "+++ ", "@@ -1,2 +1,2 @@", " interface Lo0", "-hostname a",
      "+hostname b"] = "critical" ∧
    (execOps (fun t => t)
      [.propose 1 "interface Lo0\nhostname a" "" "alice",
       .decide 1 "approve" "bob" "n1",
       .record 1 "interface Lo0\nhostname b"]).deviations.map
        (fun e => (e.severity, e.added, e.removed)) = [("critical", 1, 1)] := by
  refine ⟨by decide, by decide, rfl, by decide, by decide⟩

end BaselineCore
